import Mathlib

/-!
Verification of the webmention renderer
(`assets/js/webmention-renderer.js`): the classification,
deduplication, sanitization and escaping pipeline, shallowly embedded.

The browser DOM supplies parsing (`tempDiv.innerHTML = s`) and
serialization (`return tempDiv.innerHTML`); those collaborators are
outside the script, so the sanitizer is embedded at the level of the
parsed element tree.  The HTML parser lowercases tag and attribute
names of HTML elements; that normalization appears below as the
`attrNamesLowerList` hypothesis where a property depends on it.
-/

namespace Webmention

/-- A node of the parsed HTML fragment tree: a text node, or an element
with a tag name, an attribute list (name/value pairs, in document
order) and child nodes. -/
inductive Node where
  | text (s : String) : Node
  | elem (tag : String) (attrs : List (String × String)) (children : List Node) : Node

/-- JavaScript/HTML lowercasing of an ASCII tag or attribute name,
modelled character by character. -/
def lower (s : String) : String :=
  String.mk (s.data.map Char.toLower)

/-- JavaScript `s.startsWith(p)`. -/
def jsStartsWith (s p : String) : Bool :=
  p.data.isPrefixOf s.data

/-- The forbidden tag list of `sanitizeContent`:
`["script","style","iframe","object","embed","form","link","meta"]`. -/
def forbiddenTags : List String :=
  ["script", "style", "iframe", "object", "embed", "form", "link", "meta"]

mutual
/-- First pass of `sanitizeContent`: for each forbidden tag,
`querySelectorAll(tag)` (case-insensitive tag match in an HTML
document) collects the matching elements at any depth and `el.remove()`
detaches each together with its subtree.  Net effect on one node:
drop it if forbidden, otherwise recurse into its children. -/
def removeForbiddenNode : Node → Option Node
  | Node.text s => some (Node.text s)
  | Node.elem tag attrs children =>
      if lower tag ∈ forbiddenTags then none
      else some (Node.elem tag attrs (removeForbiddenList children))
termination_by structural n => n

/-- `removeForbiddenNode` mapped over a child list, dropping removed nodes. -/
def removeForbiddenList : List Node → List Node
  | [] => []
  | n :: ns =>
      match removeForbiddenNode n with
      | none => removeForbiddenList ns
      | some n2 => n2 :: removeForbiddenList ns
termination_by structural ns => ns
end

/-- The attribute filter of the second pass: an attribute survives
unless `name.startsWith("on") || name === "style"` (JavaScript string
comparison is case-sensitive; parsed attribute names are lowercase). -/
def keepAttr (a : String × String) : Bool :=
  ! (jsStartsWith a.1 ("on") || a.1 == "style")

mutual
/-- Second pass of `sanitizeContent`: `querySelectorAll("*")` visits
every remaining element, and `removeAttribute` drops each attribute
whose name starts with `on` or equals `style`. -/
def stripAttrsNode : Node → Node
  | Node.text s => Node.text s
  | Node.elem tag attrs children =>
      Node.elem tag (attrs.filter keepAttr) (stripAttrsList children)
termination_by structural n => n

/-- `stripAttrsNode` mapped over a child list. -/
def stripAttrsList : List Node → List Node
  | [] => []
  | n :: ns => stripAttrsNode n :: stripAttrsList ns
termination_by structural ns => ns
end

/-- `sanitizeContent`, embedded on the parsed fragment (the child list
of `tempDiv`): remove forbidden-tag elements with their subtrees, then
strip forbidden attributes from every remaining element. -/
def sanitizeContent (ns : List Node) : List Node :=
  stripAttrsList (removeForbiddenList ns)

mutual
/-- The sanitizer's output invariant on one node: no element tag in the
forbidden set (compared case-insensitively) and no attribute named
`style` or starting with `on` (compared case-insensitively), at any
depth. -/
def nodeClean : Node → Bool
  | Node.text _ => true
  | Node.elem tag attrs children =>
      decide (lower tag ∉ forbiddenTags) &&
      attrs.all (fun a => ! (jsStartsWith (lower a.1) ("on") || lower a.1 == "style")) &&
      nodesClean children
termination_by structural n => n

/-- `nodeClean` over a node list. -/
def nodesClean : List Node → Bool
  | [] => true
  | n :: ns => nodeClean n && nodesClean ns
termination_by structural ns => ns
end

mutual
/-- All attribute names in the tree are already lowercase — the
normalization guaranteed by the browser's HTML parser, which produced
the tree from the fragment string. -/
def attrNamesLowerNode : Node → Bool
  | Node.text _ => true
  | Node.elem _ attrs children =>
      attrs.all (fun a => lower a.1 == a.1) && attrNamesLowerList children
termination_by structural n => n

/-- `attrNamesLowerNode` over a node list. -/
def attrNamesLowerList : List Node → Bool
  | [] => true
  | n :: ns => attrNamesLowerNode n && attrNamesLowerList ns
termination_by structural ns => ns
end

theorem keepAttr_toLower (a : String × String) (hl : lower a.1 = a.1)
    (hk : keepAttr a = true) :
    (! (jsStartsWith (lower a.1) ("on") || lower a.1 == "style")) = true := by
  rw [hl]
  exact hk

mutual
theorem nodeClean_sanitize (n n2 : Node) (hl : attrNamesLowerNode n = true)
    (h : removeForbiddenNode n = some n2) : nodeClean (stripAttrsNode n2) = true := by
  cases n with
  | text s =>
      simp only [removeForbiddenNode, Option.some.injEq] at h
      subst h
      simp [stripAttrsNode, nodeClean]
  | elem tag attrs children =>
      simp only [removeForbiddenNode] at h
      by_cases htag : lower tag ∈ forbiddenTags
      · simp [htag] at h
      · simp only [htag, if_false, Option.some.injEq] at h
        subst h
        simp only [attrNamesLowerNode, Bool.and_eq_true, List.all_eq_true] at hl
        simp only [stripAttrsNode, nodeClean, Bool.and_eq_true, List.all_eq_true]
        refine ⟨⟨by simpa using htag, ?_⟩, ?_⟩
        · intro a ha
          have hmem := List.of_mem_filter ha
          have hlow : lower a.1 = a.1 := by
            simpa using hl.1 a (List.mem_of_mem_filter ha)
          exact keepAttr_toLower a hlow hmem
        · exact nodesClean_sanitize children hl.2

theorem nodesClean_sanitize (ns : List Node) (hl : attrNamesLowerList ns = true) :
    nodesClean (stripAttrsList (removeForbiddenList ns)) = true := by
  cases ns with
  | nil => simp [removeForbiddenList, stripAttrsList, nodesClean]
  | cons n ns =>
      simp only [attrNamesLowerList, Bool.and_eq_true] at hl
      cases hrem : removeForbiddenNode n with
      | none =>
          simp only [removeForbiddenList, hrem]
          exact nodesClean_sanitize ns hl.2
      | some n2 =>
          simp only [removeForbiddenList, hrem, stripAttrsList, nodesClean, Bool.and_eq_true]
          exact ⟨nodeClean_sanitize n n2 hl.1 hrem, nodesClean_sanitize ns hl.2⟩
end

/-- C1: for every parsed input fragment (with the HTML parser's
lowercase attribute names), the output of `sanitizeContent` contains no
element whose tag is in the forbidden set and no attribute named
`style` or whose name begins with `on` (case-insensitive), at any
nesting depth of the resulting tree. -/
theorem c1_sanitizer_safety (ns : List Node) (hl : attrNamesLowerList ns = true) :
    nodesClean (sanitizeContent ns) = true :=
  nodesClean_sanitize ns hl

/-- A concrete run of `c1_sanitizer_safety`: a fragment with a nested
`script`, an `iframe` inside a kept `div`, and `onclick`/`style`
attributes sanitizes to a clean tree. -/
theorem c1_sanitizer_safety_witness :
    nodesClean (sanitizeContent
      [Node.elem ("div") [(("onclick"), ("alert(1)")), (("style"), ("x")), (("class"), ("c"))]
        [Node.elem ("script") [] [Node.text ("evil()")],
         Node.elem ("iframe") [(("src"), ("u"))] [],
         Node.elem ("p") [(("onmouseover"), ("y"))] [Node.text ("hello")]],
       Node.text ("tail")]) = true :=
  c1_sanitizer_safety _ (by decide)

mutual
/-- No forbidden element tag anywhere in the node (the part of the
sanitizer invariant established by the first pass alone). -/
def tagCleanNode : Node → Bool
  | Node.text _ => true
  | Node.elem tag _ children =>
      decide (lower tag ∉ forbiddenTags) && tagCleanList children
termination_by structural n => n

/-- `tagCleanNode` over a node list. -/
def tagCleanList : List Node → Bool
  | [] => true
  | n :: ns => tagCleanNode n && tagCleanList ns
termination_by structural ns => ns
end

mutual
theorem tagClean_removeForbiddenNode (n n2 : Node)
    (h : removeForbiddenNode n = some n2) : tagCleanNode n2 = true := by
  cases n with
  | text s =>
      simp only [removeForbiddenNode, Option.some.injEq] at h
      subst h
      simp [tagCleanNode]
  | elem tag attrs children =>
      simp only [removeForbiddenNode] at h
      by_cases htag : lower tag ∈ forbiddenTags
      · simp [htag] at h
      · simp only [htag, if_false, Option.some.injEq] at h
        subst h
        simp only [tagCleanNode, Bool.and_eq_true]
        exact ⟨by simpa using htag, tagClean_removeForbiddenList children⟩

theorem tagClean_removeForbiddenList (ns : List Node) :
    tagCleanList (removeForbiddenList ns) = true := by
  cases ns with
  | nil => simp [removeForbiddenList, tagCleanList]
  | cons n ns =>
      cases hrem : removeForbiddenNode n with
      | none =>
          simp only [removeForbiddenList, hrem]
          exact tagClean_removeForbiddenList ns
      | some n2 =>
          simp only [removeForbiddenList, hrem, tagCleanList, Bool.and_eq_true]
          exact ⟨tagClean_removeForbiddenNode n n2 hrem, tagClean_removeForbiddenList ns⟩
end

mutual
theorem tagClean_stripAttrsNode (n : Node) (h : tagCleanNode n = true) :
    tagCleanNode (stripAttrsNode n) = true := by
  cases n with
  | text s => simp [stripAttrsNode, tagCleanNode]
  | elem tag attrs children =>
      simp only [tagCleanNode, Bool.and_eq_true] at h
      simp only [stripAttrsNode, tagCleanNode, Bool.and_eq_true]
      exact ⟨h.1, tagClean_stripAttrsList children h.2⟩

theorem tagClean_stripAttrsList (ns : List Node) (h : tagCleanList ns = true) :
    tagCleanList (stripAttrsList ns) = true := by
  cases ns with
  | nil => simp [stripAttrsList, tagCleanList]
  | cons n ns =>
      simp only [tagCleanList, Bool.and_eq_true] at h
      simp only [stripAttrsList, tagCleanList, Bool.and_eq_true]
      exact ⟨tagClean_stripAttrsNode n h.1, tagClean_stripAttrsList ns h.2⟩
end

mutual
theorem removeForbiddenNode_of_tagClean (n : Node) (h : tagCleanNode n = true) :
    removeForbiddenNode n = some n := by
  cases n with
  | text s => simp [removeForbiddenNode]
  | elem tag attrs children =>
      simp only [tagCleanNode, Bool.and_eq_true, decide_eq_true_eq] at h
      simp only [removeForbiddenNode, h.1, if_false, Option.some.injEq, if_neg]
      rw [removeForbiddenList_of_tagClean children h.2]

theorem removeForbiddenList_of_tagClean (ns : List Node) (h : tagCleanList ns = true) :
    removeForbiddenList ns = ns := by
  cases ns with
  | nil => simp [removeForbiddenList]
  | cons n ns =>
      simp only [tagCleanList, Bool.and_eq_true] at h
      simp only [removeForbiddenList, removeForbiddenNode_of_tagClean n h.1]
      rw [removeForbiddenList_of_tagClean ns h.2]
end

theorem filter_keepAttr_idem (l : List (String × String)) :
    (l.filter keepAttr).filter keepAttr = l.filter keepAttr := by
  simp [List.filter_filter]

mutual
theorem stripAttrsNode_idem (n : Node) :
    stripAttrsNode (stripAttrsNode n) = stripAttrsNode n := by
  cases n with
  | text s => simp [stripAttrsNode]
  | elem tag attrs children =>
      simp only [stripAttrsNode, Node.elem.injEq, true_and]
      exact ⟨filter_keepAttr_idem attrs, stripAttrsList_idem children⟩

theorem stripAttrsList_idem (ns : List Node) :
    stripAttrsList (stripAttrsList ns) = stripAttrsList ns := by
  cases ns with
  | nil => simp [stripAttrsList]
  | cons n ns =>
      simp only [stripAttrsList, List.cons.injEq]
      exact ⟨stripAttrsNode_idem n, stripAttrsList_idem ns⟩
end

/-- C7: `sanitizeContent` is idempotent — sanitizing an
already-sanitized fragment removes nothing further and yields an
identical fragment tree. -/
theorem c7_sanitizer_idempotent (ns : List Node) :
    sanitizeContent (sanitizeContent ns) = sanitizeContent ns := by
  unfold sanitizeContent
  rw [removeForbiddenList_of_tagClean (stripAttrsList (removeForbiddenList ns))
    (tagClean_stripAttrsList _ (tagClean_removeForbiddenList ns))]
  exact stripAttrsList_idem _

/-- JavaScript `s.replace(/c/g, r)` for a single character `c`: every
occurrence of `c` is replaced by `r`, all other characters kept. -/
def replaceAll (c : Char) (r : String) (s : String) : String :=
  String.mk (s.data.flatMap (fun ch => if ch = c then r.data else [ch]))

/-- `escapeHtml` from the source: the five global replacements
`&`→`&amp;`, `<`→`&lt;`, `>`→`&gt;`, `"`→`&quot;`, `'`→`&#039;`,
applied in that order.  (The source's `(unsafe || "")` guard only
defaults a null argument; inputs here are already strings.) -/
def escapeHtml (s : String) : String :=
  replaceAll (Char.ofNat 39) ("&#039;")
    (replaceAll (Char.ofNat 34) ("&quot;")
      (replaceAll '>' ("&gt;")
        (replaceAll '<' ("&lt;")
          (replaceAll '&' ("&amp;") s))))

/-- Modelled from the spec: the per-character entity substitution the
spec describes — each of the five characters replaced by its entity,
every other character kept verbatim. -/
def entityFor (c : Char) : List Char :=
  if c = '&' then ("&amp;").data
  else if c = '<' then ("&lt;").data
  else if c = '>' then ("&gt;").data
  else if c = Char.ofNat 34 then ("&quot;").data
  else if c = Char.ofNat 39 then ("&#039;").data
  else [c]

/-- The one-character replacement kernel of `replaceAll`. -/
def replOne (c : Char) (r : String) (ch : Char) : List Char :=
  if ch = c then r.data else [ch]

theorem replaceAll_data (c : Char) (r s : String) :
    (replaceAll c r s).data = s.data.flatMap (replOne c r) := rfl

theorem escapeHtml_data (s : String) :
    (escapeHtml s).data = s.data.flatMap entityFor := by
  show ((((s.data.flatMap (replOne '&' ("&amp;"))).flatMap
      (replOne '<' ("&lt;"))).flatMap (replOne '>' ("&gt;"))).flatMap
      (replOne (Char.ofNat 34) ("&quot;"))).flatMap (replOne (Char.ofNat 39) ("&#039;")) =
      s.data.flatMap entityFor
  induction s.data with
  | nil => rfl
  | cons ch l ih =>
      simp only [List.flatMap_cons, List.flatMap_append]
      rw [ih]
      congr 1
      by_cases h1 : ch = '&'
      · subst h1; rfl
      · by_cases h2 : ch = '<'
        · subst h2; rfl
        · by_cases h3 : ch = '>'
          · subst h3; rfl
          · by_cases h4 : ch = Char.ofNat 34
            · subst h4; rfl
            · by_cases h5 : ch = Char.ofNat 39
              · subst h5; rfl
              · simp [replOne, entityFor, h1, h2, h3, h4, h5]

/-- The `author` object of a raw interaction record; every field may be
absent. -/
structure Author where
  name : Option String
  photo : Option String
  url : Option String
  uid : Option String
deriving DecidableEq

/-- The `content` object of a raw interaction record. -/
structure Content where
  html : Option String
  text : Option String
deriving DecidableEq

/-- A raw interaction record as the script reads it: the fields of
`data.children[i]` that the renderer accesses.  `none` models an absent
(undefined) field. -/
structure Mention where
  author : Option Author
  url : Option String
  wmProperty : Option String
  published : Option String
  content : Option Content
deriving DecidableEq

/-- JavaScript `x || d` on an optionally-absent string: absent and
empty strings are falsy. -/
def optOr (o : Option String) (d : String) : String :=
  match o with
  | none => d
  | some s => if s = "" then d else s

/-- `escapeHtml(m.author?.name || "Unknown")` — the escaped author
display name. -/
def authorDisplayName (m : Mention) : String :=
  escapeHtml (match m.author with
    | none => "Unknown"
    | some a => optOr a.name ("Unknown"))

/-- The author field of a rendered Mentions item:
`authorUrl ? <a href=...>authorName</a> : authorName` with
`authorUrl = m.author?.url || ""`. -/
def authorSpanInner (m : Mention) : String :=
  let authorUrl := match m.author with
    | none => ""
    | some a => optOr a.url ("")
  if authorUrl ≠ "" then
    "<a href=\"" ++ escapeHtml authorUrl ++ "\" target=\"_blank\" rel=\"nofollow noopener\">" ++
      authorDisplayName m ++ "</a>"
  else authorDisplayName m

/-- The record of the escaping scenario: an author whose name is an
injection attempt and who has no profile url. -/
def injectionMention : Mention :=
  { author := some { name := some ("<img src=x onerror=alert(1)>"),
                     photo := none, url := none, uid := none },
    url := none, wmProperty := some ("mention-of"), published := none, content := none }

/-- C2: every author name is embedded through `escapeHtml`, which
replaces each of `&` `<` `>` `"` `'` by its entity and keeps every
other character; in particular the author field rendered for the name
`<img src=x onerror=alert(1)>` is exactly the escaped literal text and
contains no raw `<` at all (hence never a raw `<img` substring). -/
theorem c2_author_escaping :
    (∀ s : String, (escapeHtml s).data = s.data.flatMap entityFor) ∧
    authorSpanInner injectionMention = "&lt;img src=x onerror=alert(1)&gt;" ∧
    (∀ c ∈ (authorSpanInner injectionMention).data, c ≠ '<') :=
  ⟨escapeHtml_data, by decide, by decide⟩

/-- Witness for `c2_author_escaping`: its per-character clause applied
to the ampersand of the escaped output. -/
theorem c2_author_escaping_witness : ('&' : Char) ≠ '<' :=
  c2_author_escaping.2.2 '&' (by decide)

/-- Comma-joins already-rendered JSON members. -/
def joinComma : List String → String
  | [] => ""
  | [x] => x
  | x :: xs => x ++ "," ++ joinComma xs

/-- A JSON string literal (value escaping elided; the records under
study contain no quotes). -/
def quoteJson (s : String) : String :=
  "\"" ++ s ++ "\""

/-- One optional JSON member, omitted when the field is absent — as
`JSON.stringify` omits `undefined` properties. -/
def jsonField (k : String) (v : Option String) : List String :=
  match v with
  | none => []
  | some s => [quoteJson k ++ ":" ++ quoteJson s]

/-- `JSON.stringify` of an author object. -/
def jsonAuthor (a : Author) : String :=
  "\x7b" ++ joinComma (jsonField ("name") a.name ++ jsonField ("photo") a.photo ++
    jsonField ("url") a.url ++ jsonField ("uid") a.uid) ++ "\x7d"

/-- `JSON.stringify` of a content object. -/
def jsonContent (c : Content) : String :=
  "\x7b" ++ joinComma (jsonField ("html") c.html ++ jsonField ("text") c.text) ++ "\x7d"

/-- `JSON.stringify(l)` on a raw record — the full-record fallback of
the deduplication key. -/
def jsonStringify (m : Mention) : String :=
  "\x7b" ++ joinComma
    ((match m.author with
      | none => []
      | some a => [quoteJson ("author") ++ ":" ++ jsonAuthor a]) ++
     jsonField ("url") m.url ++ jsonField ("wm-property") m.wmProperty ++
     jsonField ("published") m.published ++
     (match m.content with
      | none => []
      | some c => [quoteJson ("content") ++ ":" ++ jsonContent c])) ++ "\x7d"

/-- The `authorUrl` of the Likes deduplication:
`(l.author && (l.author.url || l.author.uid || l.author.name)) || l.url || ""`. -/
def likeAuthorUrl (l : Mention) : String :=
  match l.author with
  | none => optOr l.url ("")
  | some a => optOr a.url (optOr a.uid (optOr a.name (optOr l.url (""))))

/-- The deduplication key of a Likes record:
`authorUrl || (l.author && l.author.name) || JSON.stringify(l)`. -/
def dedupKey (l : Mention) : String :=
  let aurl := likeAuthorUrl l
  if aurl ≠ "" then aurl
  else
    match l.author with
    | none => jsonStringify l
    | some a => optOr a.name (jsonStringify l)

/-- Modelled from the spec: the DedupKey chain exactly as the spec
states it — author url, then author uid, then author name, then the
full-record fallback, and nothing else. -/
def specDedupKey (l : Mention) : String :=
  match l.author with
  | none => jsonStringify l
  | some a => optOr a.url (optOr a.uid (optOr a.name (jsonStringify l)))

/-- First truthy (present and non-empty) value of a chain, with a
default. -/
def firstTruthyD : List (Option String) → String → String
  | [], d => d
  | o :: os, d =>
      match o with
      | none => firstTruthyD os d
      | some s => if s = "" then firstTruthyD os d else s

/-- The key chain the code actually computes: author url, author uid,
author name, then the record's own url, then the full-record fallback. -/
def amendedDedupKey (l : Mention) : String :=
  firstTruthyD
    ((match l.author with
      | none => []
      | some a => [a.url, a.uid, a.name]) ++ [l.url])
    (jsonStringify l)

/-- A Likes record with no author object but with its own `url`: the
code keys it by that url, the spec's chain would fall through to the
full-record fallback. -/
def urlOnlyLike : Mention :=
  { author := none, url := some ("https://x.example/post"),
    wmProperty := some ("like-of"), published := none, content := none }

/-- C3 counterexample: on a record with no author data but a record
`url`, the key the code computes differs from the chain the spec
states — the record's own url enters the code's chain. -/
theorem c3_dedup_key_counterexample :
    dedupKey urlOnlyLike ≠ specDedupKey urlOnlyLike := by decide

/-- C3 (amended): the deduplication key is the first truthy value of
author url, author uid, author name, then the record's own url, and
otherwise the full-record fallback. -/
theorem c3_dedup_key_amended (l : Mention) :
    dedupKey l = amendedDedupKey l := by
  rcases l with ⟨author, url, wm, pub, content⟩
  cases author with
  | none =>
      cases url with
      | none => rfl
      | some u =>
          by_cases hu : u = "" <;>
            simp [dedupKey, likeAuthorUrl, amendedDedupKey, firstTruthyD, optOr, hu]
  | some a =>
      rcases a with ⟨nm, ph, au, uid⟩
      cases au with
      | some s =>
          by_cases hs : s = "" <;>
          cases uid <;> cases nm <;> cases url <;>
            simp [dedupKey, likeAuthorUrl, amendedDedupKey, firstTruthyD, optOr, hs] <;>
            split_ifs <;> simp_all [firstTruthyD]
      | none =>
          cases uid <;> cases nm <;> cases url <;>
            simp [dedupKey, likeAuthorUrl, amendedDedupKey, firstTruthyD, optOr] <;>
            split_ifs <;> simp_all [firstTruthyD]

/-- The deduplication loop over the Likes bucket: `seen` is the set of
keys already encountered; a record whose key is in `seen` is dropped,
otherwise it is kept and its key added. -/
def dedupAux (seen : List String) : List Mention → List Mention
  | [] => []
  | l :: rest =>
      if dedupKey l ∈ seen then dedupAux seen rest
      else l :: dedupAux (dedupKey l :: seen) rest

/-- `uniqueLikes`: the deduplicated Likes bucket, starting from an
empty `seen` set. -/
def dedupLikes (ls : List Mention) : List Mention :=
  dedupAux [] ls

theorem dedupAux_sublist (seen : List String) (ls : List Mention) :
    (dedupAux seen ls).Sublist ls := by
  induction ls generalizing seen with
  | nil => simp [dedupAux]
  | cons l rest ih =>
      by_cases h : dedupKey l ∈ seen
      · simp only [dedupAux, if_pos h]
        exact (ih seen).trans (List.sublist_cons_self l rest)
      · simp only [dedupAux, if_neg h]
        exact (ih (dedupKey l :: seen)).cons₂ l

theorem dedupAux_not_seen (seen : List String) (ls : List Mention) (m : Mention)
    (hm : m ∈ dedupAux seen ls) : dedupKey m ∉ seen := by
  induction ls generalizing seen with
  | nil => simp [dedupAux] at hm
  | cons l rest ih =>
      by_cases h : dedupKey l ∈ seen
      · simp only [dedupAux, if_pos h] at hm
        exact ih seen hm
      · simp only [dedupAux, if_neg h, List.mem_cons] at hm
        cases hm with
        | inl he => subst he; exact h
        | inr ht =>
            have := ih (dedupKey l :: seen) ht
            exact fun hc => this (List.mem_cons_of_mem _ hc)

theorem dedupAux_first_occurrence (seen : List String) (ls : List Mention) (m : Mention)
    (hm : m ∈ dedupAux seen ls) :
    ls.find? (fun x => dedupKey x == dedupKey m) = some m := by
  induction ls generalizing seen with
  | nil => simp [dedupAux] at hm
  | cons l rest ih =>
      by_cases h : dedupKey l ∈ seen
      · simp only [dedupAux, if_pos h] at hm
        have hne : dedupKey l ≠ dedupKey m := by
          intro he
          exact dedupAux_not_seen seen rest m hm (he ▸ h)
        rw [List.find?_cons_of_neg _ (by simpa using hne)]
        exact ih seen hm
      · simp only [dedupAux, if_neg h, List.mem_cons] at hm
        cases hm with
        | inl he =>
            subst he
            exact List.find?_cons_of_pos _ (by simp)
        | inr ht =>
            have hnot := dedupAux_not_seen _ rest m ht
            have hne : dedupKey l ≠ dedupKey m := by
              intro he
              exact hnot (he ▸ List.mem_cons_self _ _)
            rw [List.find?_cons_of_neg _ (by simpa using hne)]
            exact ih (dedupKey l :: seen) ht

theorem dedupAux_keys_nodup (seen : List String) (ls : List Mention) :
    ((dedupAux seen ls).map dedupKey).Nodup := by
  induction ls generalizing seen with
  | nil => simp [dedupAux]
  | cons l rest ih =>
      by_cases h : dedupKey l ∈ seen
      · simp only [dedupAux, if_pos h]
        exact ih seen
      · simp only [dedupAux, if_neg h, List.map_cons, List.nodup_cons]
        refine ⟨?_, ih (dedupKey l :: seen)⟩
        intro hc
        rcases List.mem_map.mp hc with ⟨m, hm, hkey⟩
        exact dedupAux_not_seen _ rest m hm (hkey ▸ List.mem_cons_self _ _)

/-- C4: the deduplicated Likes output is a subsequence of the input
(so relative order of retained records is their input order), any two
retained records have different keys, and each retained record is the
first occurrence of its key in the input. -/
theorem c4_dedup_stable_filter (ls : List Mention) :
    (dedupLikes ls).Sublist ls ∧
    ((dedupLikes ls).map dedupKey).Nodup ∧
    (∀ m ∈ dedupLikes ls, ls.find? (fun x => dedupKey x == dedupKey m) = some m) :=
  ⟨dedupAux_sublist [] ls, dedupAux_keys_nodup [] ls,
    fun m hm => dedupAux_first_occurrence [] ls m hm⟩

/-- Two Likes records by the same author url and a third by another
author. -/
def annA : Mention :=
  { author := some { name := some ("Ann"), photo := none,
                     url := some ("https://a.example"), uid := none },
    url := none, wmProperty := some ("like-of"), published := none, content := none }

/-- A second record by the same author as `annA` (different record
url). -/
def annB : Mention :=
  { author := some { name := some ("Ann"), photo := none,
                     url := some ("https://a.example"), uid := none },
    url := some ("https://a.example/like"), wmProperty := some ("like-of"),
    published := none, content := none }

/-- A record by a different author. -/
def bobA : Mention :=
  { author := some { name := some ("Bob"), photo := none,
                     url := some ("https://b.example"), uid := none },
    url := none, wmProperty := some ("like-of"), published := none, content := none }

/-- Witness for `c4_dedup_stable_filter`: on `[annA, annB, bobA]` the
first-occurrence clause applied to `annA`, which the deduplicator
retains while dropping `annB`. -/
theorem c4_dedup_stable_filter_witness :
    [annA, annB, bobA].find? (fun x => dedupKey x == dedupKey annA) = some annA :=
  (c4_dedup_stable_filter [annA, annB, bobA]).2.2 annA (by decide)

/-- One step of the partition loop: the record is pushed onto `likes`
when `wm-property` is `like-of` or `repost-of`, onto `mentionsList`
when it is `in-reply-to` or `mention-of`, and — the explicit default
branch — onto `mentionsList` for anything else. -/
def pushBuckets (acc : List Mention × List Mention) (m : Mention) :
    List Mention × List Mention :=
  let wmType := m.wmProperty
  if wmType == some ("like-of") || wmType == some ("repost-of") then
    (acc.1 ++ [m], acc.2)
  else if wmType == some ("in-reply-to") || wmType == some ("mention-of") then
    (acc.1, acc.2 ++ [m])
  else
    (acc.1, acc.2 ++ [m])

/-- The `mentions.forEach` partition into `likes` and `mentionsList`. -/
def partitionMentions (ms : List Mention) : List Mention × List Mention :=
  ms.foldl pushBuckets ([], [])

/-- The condition that routes a record to the Likes bucket. -/
def isLike (m : Mention) : Bool :=
  m.wmProperty == some ("like-of") || m.wmProperty == some ("repost-of")

theorem pushBuckets_eq (acc : List Mention × List Mention) (m : Mention) :
    pushBuckets acc m =
      if isLike m then (acc.1 ++ [m], acc.2) else (acc.1, acc.2 ++ [m]) := by
  by_cases h : isLike m
  · simp only [pushBuckets, isLike] at h ⊢
    rw [if_pos h, if_pos h]
  · simp only [pushBuckets, isLike] at h ⊢
    rw [if_neg h, if_neg h]
    split_ifs <;> rfl

theorem foldl_pushBuckets (ms : List Mention) (lk mn : List Mention) :
    ms.foldl pushBuckets (lk, mn) =
      (lk ++ ms.filter isLike, mn ++ ms.filter (fun m => ! isLike m)) := by
  induction ms generalizing lk mn with
  | nil => simp
  | cons m ms ih =>
      rw [List.foldl_cons, pushBuckets_eq]
      by_cases h : isLike m
      · rw [if_pos h, ih]
        simp [List.filter_cons, h]
      · rw [if_neg h, ih]
        simp [List.filter_cons, h]

theorem partitionMentions_eq (ms : List Mention) :
    partitionMentions ms = (ms.filter isLike, ms.filter (fun m => ! isLike m)) := by
  rw [partitionMentions, foldl_pushBuckets]
  simp

/-- C5: the partition is total and disjoint — the Likes bucket is
exactly the records tagged `like-of` or `repost-of` in order, the
Mentions bucket exactly the rest (including unknown tags) in order,
the sizes add up, and every input record lands in exactly one of the
two buckets. -/
theorem c5_partition_total_disjoint (ms : List Mention) :
    (partitionMentions ms).1 = ms.filter isLike ∧
    (partitionMentions ms).2 = ms.filter (fun m => ! isLike m) ∧
    (partitionMentions ms).1.length + (partitionMentions ms).2.length = ms.length ∧
    (∀ m ∈ ms,
      (m ∈ (partitionMentions ms).1 ∧ m ∉ (partitionMentions ms).2) ∨
      (m ∉ (partitionMentions ms).1 ∧ m ∈ (partitionMentions ms).2)) := by
  have hp := partitionMentions_eq ms
  refine ⟨by rw [hp], by rw [hp], ?_, ?_⟩
  · rw [hp]
    simpa using (@List.length_eq_length_filter_add _ ms isLike).symm
  · intro m hm
    rw [hp]
    by_cases h : isLike m
    · exact Or.inl ⟨List.mem_filter.mpr ⟨hm, h⟩, by simp [List.mem_filter, h]⟩
    · exact Or.inr ⟨by simp [List.mem_filter, h], List.mem_filter.mpr ⟨hm, by simp [h]⟩⟩

/-- A reply record used in partition and classifier witnesses. -/
def replyRecord : Mention :=
  { author := some { name := some ("Cay"), photo := none, url := none, uid := none },
    url := some ("https://c.example/reply"), wmProperty := some ("in-reply-to"),
    published := none,
    content := some { html := some ("<p>hello</p>"), text := some ("hello") } }

/-- A record with an unrecognized `wm-property` tag. -/
def bookmarkRecord : Mention :=
  { author := none, url := some ("https://d.example"),
    wmProperty := some ("bookmark-of"), published := none, content := none }

/-- Witness for `c5_partition_total_disjoint`: on
`[annA, replyRecord, bookmarkRecord]`, the like lands only in the
Likes bucket. -/
theorem c5_partition_total_disjoint_witness :
    (annA ∈ (partitionMentions [annA, replyRecord, bookmarkRecord]).1 ∧
      annA ∉ (partitionMentions [annA, replyRecord, bookmarkRecord]).2) ∨
    (annA ∉ (partitionMentions [annA, replyRecord, bookmarkRecord]).1 ∧
      annA ∈ (partitionMentions [annA, replyRecord, bookmarkRecord]).2) :=
  (c5_partition_total_disjoint [annA, replyRecord, bookmarkRecord]).2.2.2 annA (by decide)

/-- The verb of a Mentions item: initialized to `"mentioned"` and
overwritten by the three `if` statements for `like-of`, `repost-of`
and `in-reply-to` (there is no `mention-of` branch; it keeps the
default). -/
def verbFor (wmType : Option String) : String :=
  let verb := "mentioned"
  let verb := if wmType == some ("like-of") then "liked" else verb
  let verb := if wmType == some ("repost-of") then "reposted" else verb
  if wmType == some ("in-reply-to") then "replied" else verb

/-- The icon of a Mentions item: initialized to the speech bubble and
overwritten by the same three `if` statements. -/
def iconFor (wmType : Option String) : String :=
  let icon := "💬"
  let icon := if wmType == some ("like-of") then "❤️" else icon
  let icon := if wmType == some ("repost-of") then "🔁" else icon
  if wmType == some ("in-reply-to") then "↩️" else icon

/-- C6: a record whose raw tag is none of the four known tags lands in
the Mentions bucket with verb `"mentioned"` and the speech-bubble
icon; and classification is a function of the tag alone, so equal tags
classify equally. -/
theorem c6_classifier_closure (ms : List Mention) (m : Mention) (hm : m ∈ ms)
    (hu : m.wmProperty ∉ [some ("like-of"), some ("repost-of"),
      some ("in-reply-to"), some ("mention-of")]) :
    m ∈ (partitionMentions ms).2 ∧
    verbFor m.wmProperty = "mentioned" ∧
    iconFor m.wmProperty = "💬" ∧
    (∀ w1 w2 : Option String, w1 = w2 →
      verbFor w1 = verbFor w2 ∧ iconFor w1 = iconFor w2) := by
  simp only [List.mem_cons, List.not_mem_nil, or_false, not_or] at hu
  obtain ⟨h1, h2, h3, h4⟩ := hu
  refine ⟨?_, ?_, ?_, ?_⟩
  · have hp := congrArg Prod.snd (partitionMentions_eq ms)
    rw [hp]
    refine List.mem_filter.mpr ⟨hm, ?_⟩
    simp [isLike, h1, h2]
  · simp [verbFor, h1, h2, h3]
  · simp [iconFor, h1, h2, h3]
  · intro w1 w2 he
    rw [he]
    exact ⟨rfl, rfl⟩

/-- Witness for `c6_classifier_closure`: the `bookmark-of` record is a
Mentions-bucket record classified `"mentioned"` with the speech
bubble. -/
theorem c6_classifier_closure_witness :
    bookmarkRecord ∈ (partitionMentions [annA, replyRecord, bookmarkRecord]).2 ∧
    verbFor bookmarkRecord.wmProperty = "mentioned" ∧
    iconFor bookmarkRecord.wmProperty = "💬" ∧
    (∀ w1 w2 : Option String, w1 = w2 →
      verbFor w1 = verbFor w2 ∧ iconFor w1 = iconFor w2) :=
  c6_classifier_closure [annA, replyRecord, bookmarkRecord] bookmarkRecord
    (by decide) (by decide)

/-- The rendered date field
`m.published ? new Date(m.published).toLocaleDateString() : ""`.
The `Date` collaborator is abstracted by `dateParse` (the time value,
`none` for an unparseable string, i.e. `NaN`) and `localeFormat`
(locale formatting of a valid time value); per ECMA-402,
`toLocaleDateString` on a `NaN` time value returns the string
`"Invalid Date"` rather than throwing. -/
def renderedDate (dateParse : String → Option Nat) (localeFormat : Nat → String)
    (m : Mention) : String :=
  match m.published with
  | none => ""
  | some s =>
      if s = "" then ""
      else
        match dateParse s with
        | none => "Invalid Date"
        | some t => localeFormat t

/-- A record whose `published` field is present but unparseable. -/
def badDateRecord : Mention :=
  { author := none, url := none, wmProperty := some ("mention-of"),
    published := some ("not-a-date"), content := none }

/-- C8 counterexample: with a `Date` collaborator that fails to parse
the string (`NaN` time value), the rendered date field of a record
whose `published` is present but unparseable is the literal
`"Invalid Date"`, not the empty string the claim requires. -/
theorem c8_bad_date_counterexample :
    renderedDate (fun _ => none) (fun _ => "1/1/2020") badDateRecord ≠ "" := by decide

/-- C8 (amended): an absent (or empty, hence falsy) `published` field
renders as the empty string, and a present-but-unparseable one renders
as the literal string `"Invalid Date"` — in both cases the record is
still rendered, no error is raised. -/
theorem c8_date_rendering (dateParse : String → Option Nat)
    (localeFormat : Nat → String) (m : Mention) :
    (m.published = none → renderedDate dateParse localeFormat m = "") ∧
    (∀ s, m.published = some s → s ≠ "" → dateParse s = none →
      renderedDate dateParse localeFormat m = "Invalid Date") := by
  constructor
  · intro h
    simp [renderedDate, h]
  · intro s hs hne hp
    simp [renderedDate, hs, hne, hp]

/-- Witness for `c8_date_rendering`: the unparseable-date clause
evaluated on `badDateRecord`. -/
theorem c8_date_rendering_witness :
    renderedDate (fun _ => none) (fun _ => "1/1/2020") badDateRecord = "Invalid Date" :=
  (c8_date_rendering (fun _ => none) (fun _ => "1/1/2020") badDateRecord).2
    ("not-a-date") rfl (by decide) rfl

/-- Splits a character list on a separator character; JavaScript
`String.prototype.split` semantics (the empty string yields one empty
entry). -/
def splitOnCharList (c : Char) : List Char → List (List Char)
  | [] => [[]]
  | x :: xs =>
      match splitOnCharList c xs with
      | [] => [[x]]
      | g :: gs => if x = c then [] :: g :: gs else (x :: g) :: gs

/-- JavaScript `s.split(c)` for a one-character separator. -/
def jsSplit (c : Char) (s : String) : List String :=
  (splitOnCharList c s.data).map String.mk

/-- JavaScript `s.trim()`: leading and trailing whitespace removed. -/
def jsTrim (s : String) : String :=
  String.mk (((s.data.dropWhile Char.isWhitespace).reverse.dropWhile
    Char.isWhitespace).reverse)

/-- The target list:
`rawTargets.split(",").map((t) => t.trim()).filter(Boolean)` —
comma-split, each entry trimmed, empty (falsy) entries discarded. -/
def parseTargets (raw : String) : List String :=
  ((jsSplit ',' raw).map jsTrim).filter (fun t => t ≠ "")

/-- An observable action of the script's set-up phase on its
collaborators. -/
inductive Effect where
  | render (s : String)
  | fetchCall
  | observeContainer
deriving DecidableEq

/-- The effects of the set-up phase (the IIFE body): it returns early
— before writing any markup, observing, or fetching — when the
container is missing or when `targets` is empty; otherwise it only
registers the visibility observer (rendering and the network call
happen later, inside the observer callback). -/
def initEffects (containerExists : Bool) (raw : String) : List Effect :=
  if !containerExists then []
  else if (parseTargets raw).length = 0 then []
  else [Effect.observeContainer]

/-- C9: every retained target is a non-empty trimmed piece of the
comma-split configuration string, and when the resulting target list
is empty the set-up phase performs no effect at all — nothing is
rendered and no retrieval (or even observer registration) happens. -/
theorem c9_targets_noop (raw : String) :
    (∀ t ∈ parseTargets raw, t ≠ "" ∧ ∃ u ∈ jsSplit ',' raw, t = jsTrim u) ∧
    (parseTargets raw = [] → initEffects true raw = []) := by
  constructor
  · intro t ht
    rw [parseTargets, List.mem_filter] at ht
    obtain ⟨hmem, hne⟩ := ht
    refine ⟨by simpa using hne, ?_⟩
    rcases List.mem_map.mp hmem with ⟨u, hu, he⟩
    exact ⟨u, hu, he.symm⟩
  · intro h
    simp [initEffects, h]

/-- Witness for `c9_targets_noop`: a configuration string of commas
and spaces yields no targets and a silent no-op. -/
theorem c9_targets_noop_witness : initEffects true (" , ,  ") = [] :=
  (c9_targets_noop (" , ,  ")).2 (by decide)

/-- The content fragment
`m.content?.html || m.content?.text || ""`. -/
def contentOf (m : Mention) : String :=
  match m.content with
  | none => ""
  | some c => optOr c.html (optOr c.text (""))

/-- The content cell of a Mentions item: rendered only when the tag is
`in-reply-to` or `mention-of` and the content fragment is truthy, in
which case the fragment is passed through the sanitizer (abstracted
here as `S`, the browser-parse / `sanitizeContent` / serialize
composite) and embedded as markup. -/
def contentCellHtml (S : String → String) (m : Mention) : String :=
  if (m.wmProperty == some ("in-reply-to") || m.wmProperty == some ("mention-of")) &&
      contentOf m ≠ "" then
    "<div class=\"webmention-content\">" ++ S (contentOf m) ++ "</div>"
  else ""

/-- C10: for a Mentions record tagged `in-reply-to` or `mention-of`
whose `content.html` is absent but whose `content.text` is non-empty,
the renderer falls back to `content.text`: that string is what is
passed through the sanitizer and embedded in the item's content
cell. -/
theorem c10_text_fallback (S : String → String) (m : Mention) (c : Content) (t : String)
    (hc : m.content = some c) (hh : c.html = none) (ht : c.text = some t) (hne : t ≠ "")
    (hw : m.wmProperty = some ("in-reply-to") ∨ m.wmProperty = some ("mention-of")) :
    contentOf m = t ∧
    contentCellHtml S m = "<div class=\"webmention-content\">" ++ S t ++ "</div>" := by
  have hco : contentOf m = t := by
    simp [contentOf, hc, hh, optOr, ht, hne]
  refine ⟨hco, ?_⟩
  rcases hw with hw | hw <;>
    simp [contentCellHtml, hw, hco, hne]

/-- A reply record with text-only content. -/
def textOnlyReply : Mention :=
  { author := none, url := some ("https://e.example"),
    wmProperty := some ("in-reply-to"), published := none,
    content := some { html := none, text := some ("plain words") } }

/-- Witness for `c10_text_fallback`: the text-only reply's content
cell embeds the sanitized `content.text`. -/
theorem c10_text_fallback_witness :
    contentOf textOnlyReply = "plain words" ∧
    contentCellHtml (fun s => s) textOnlyReply =
      "<div class=\"webmention-content\">" ++ "plain words" ++ "</div>" :=
  c10_text_fallback (fun s => s) textOnlyReply
    { html := none, text := some ("plain words") } ("plain words")
    rfl rfl rfl (by decide) (Or.inl rfl)

end Webmention
